import Mathlib

/-!
# tytools: board capabilities, the descriptor poll, the upload command and the
# command-line board selection

A shallow embedding of

* `include/ty/board.h`: `ty_board_capability`, `ty_board_has_capability`;
* `src/system_unix.c`: `ty_millis`, `get_basename`, `_ty_statat`, `ty_poll`;
* `src/tyc/upload.c`: `upload`;
* `tyc/main.c`: `board_callback`.

Machine integers are `Nat`/`Int`, reduced explicitly where the C type wraps.
Calls into the operating system and into parts of the library that are not in
these files (`poll`, `stat`, `ty_firmware_load`, `tyb_board_matches_tag`, ...) are
inputs of the embedded functions: each function receives what the call
answered and records what it passed.
-/

namespace TyTools

/-! ## `include/ty/board.h` -/

/-- The enum `ty_board_capability` (names without the `TY_BOARD_CAPABILITY_` prefix). -/
inductive ty_board_capability
  | IDENTIFY
  | UPLOAD
  | RESET
  | SERIAL
  | REBOOT
  deriving DecidableEq, Repr

/-- The enumerator values written in the header. -/
def ty_board_capability.value : ty_board_capability → Nat
  | .IDENTIFY => 1
  | .UPLOAD => 2
  | .RESET => 4
  | .SERIAL => 8
  | .REBOOT => 16

/-- Position of the bit a capability occupies in a mask. -/
def ty_board_capability.bit : ty_board_capability → Nat
  | .IDENTIFY => 0
  | .UPLOAD => 1
  | .RESET => 2
  | .SERIAL => 3
  | .REBOOT => 4

/-- The mask obtained by OR-ing the values of the listed capabilities. -/
def capability_mask : List ty_board_capability → Nat
  | [] => 0
  | c :: cs => c.value ||| capability_mask cs

/-- The inline `ty_board_has_capability`: `ty_board_get_capabilities(board) & cap`
converted to `bool`.  The argument `capabilities` is what
`ty_board_get_capabilities` returned, a `uint32_t`. -/
def ty_board_has_capability (capabilities : Nat) (cap : ty_board_capability) : Bool :=
  ((capabilities % 2 ^ 32) &&& cap.value) != 0

/-! ## `src/system_unix.c`: the clock -/

/-- C conversion of a signed integer to `uint64_t`. -/
def to_uint64 (x : Int) : Nat := (x % 2 ^ 64).toNat

/-- The function `ty_millis` with the `struct timespec` that `clock_gettime` filled in
as its input: `(uint64_t)spec.tv_sec * 1000 + (uint64_t)spec.tv_nsec / 10000000`. -/
def ty_millis (tv_sec tv_nsec : Int) : Nat :=
  (to_uint64 tv_sec * 1000 + to_uint64 tv_nsec / 10000000) % 2 ^ 64

/-- The reading of a clock in whole milliseconds, in 64-bit unsigned arithmetic. -/
def whole_millis (tv_sec tv_nsec : Int) : Nat :=
  (to_uint64 tv_sec * 1000 + to_uint64 tv_nsec / 1000000) % 2 ^ 64

/-! ## `src/system_unix.c`: `ty_poll` -/

/-- The `<poll.h>` event bits the function names (Linux values). -/
def POLLIN : Nat := 0x001
def POLLERR : Nat := 0x008
def POLLHUP : Nat := 0x010
def POLLNVAL : Nat := 0x020

/-- The `<errno.h>` value of `EINTR`. -/
def EINTR : Nat := 4

/-- The struct `ty_descriptor_set`: `count` slots of `desc` and `id` are in use. -/
structure ty_descriptor_set where
  count : Nat
  desc : List Int
  id : List Int
  deriving DecidableEq, Repr

/-- One `struct pollfd` as the function fills it in before calling `poll`. -/
structure pollfd where
  fd : Int
  events : Nat
  deriving DecidableEq, Repr

/-- The arguments of one call of `poll(pfd, set->count, timeout)`. -/
structure poll_call where
  pfd : List pollfd
  nfds : Nat
  timeout : Int
  deriving DecidableEq, Repr

/-- What one call of `poll` answered: its return value, `errno`, and the `revents`
it stored in the entries of `pfd`. -/
structure poll_reply where
  r : Int
  errno : Nat
  revents : List Nat
  deriving DecidableEq, Repr

/-- How a call of `ty_poll` ends. -/
inductive ty_poll_return
  /-- Returned through `ty_error(TY_ERROR_SYSTEM, "poll() failed: %s", strerror(errno))`. -/
  | system_error (errno : Nat)
  /-- Returned by `return 0` or `return set->id[i]`. -/
  | value (v : Int)
  /-- Stopped at one of the `assert`s. -/
  | assert_failed
  deriving DecidableEq, Repr

/-- A run of `ty_poll`: the calls of `poll` it made in order, and how it returned;
`result = none` when the last call of `poll` has not answered. -/
structure ty_poll_run where
  calls : List poll_call
  result : Option ty_poll_return
  deriving DecidableEq, Repr

/-- The first loop: `pfd[i].events = POLLIN; pfd[i].fd = set->desc[i]` for `i < count`. -/
def ty_poll_fill (set : ty_descriptor_set) : List pollfd :=
  (List.range set.count).map (fun i => { fd := set.desc.getD i 0, events := POLLIN })

/-- The test `pfd[i].revents & (POLLIN | POLLERR | POLLHUP | POLLNVAL)`. -/
def ty_poll_ready (revents : Nat) : Bool :=
  (revents &&& (POLLIN ||| POLLERR ||| POLLHUP ||| POLLNVAL)) != 0

/-- The last loop, from index `i` with `n` indices left (`i + n = set->count`):
the id of the first ready entry, `assert(false)` when there is none. -/
def ty_poll_scan (set : ty_descriptor_set) (revents : List Nat) : Nat → Nat → ty_poll_return
  | _, 0 => .assert_failed
  | i, n + 1 =>
    if ty_poll_ready (revents.getD i 0) then .value (set.id.getD i 0)
    else ty_poll_scan set revents (i + 1) n

/-- The part of `ty_poll` from the label `restart` on, against the successive answers
of `poll`. -/
def ty_poll_restart (set : ty_descriptor_set) (call : poll_call) :
    List poll_reply → ty_poll_run
  | [] => { calls := [call], result := none }
  | reply :: replies =>
    if reply.r < 0 then
      if reply.errno = EINTR then
        let rest := ty_poll_restart set call replies
        { calls := call :: rest.calls, result := rest.result }
      else { calls := [call], result := some (.system_error reply.errno) }
    else if reply.r = 0 then { calls := [call], result := some (.value 0) }
    else { calls := [call], result := some (ty_poll_scan set reply.revents 0 set.count) }

/-- The function `ty_poll(set, timeout)`; `replies` are the answers of the successive
calls of `poll`. -/
def ty_poll (set : ty_descriptor_set) (timeout : Int) (replies : List poll_reply) :
    ty_poll_run :=
  if set.count = 0 ∨ 64 < set.count then { calls := [], result := some .assert_failed }
  else
    let pfd := ty_poll_fill set
    let timeout := if timeout < 0 then -1 else timeout
    ty_poll_restart set { pfd := pfd, nfds := set.count, timeout := timeout } replies

/-- The POSIX contract of a successful `poll`: the return value is the number of entries
among the first `nfds` whose `revents` is nonzero. -/
def poll_reply_posix (nfds : Nat) (reply : poll_reply) : Prop :=
  reply.r = (((List.range nfds).filter (fun i => reply.revents.getD i 0 != 0)).length : Int)

instance (nfds : Nat) (reply : poll_reply) : Decidable (poll_reply_posix nfds reply) := by
  unfold poll_reply_posix; infer_instance

/-- An answer of `poll` that reports an interrupted wait. -/
def poll_reply.interrupted (reply : poll_reply) : Prop :=
  reply.r < 0 ∧ reply.errno = EINTR

instance (reply : poll_reply) : Decidable reply.interrupted := by
  unfold poll_reply.interrupted; infer_instance

/-! ## `src/tyc/upload.c` -/

/-- The values `EXIT_SUCCESS` and `EXIT_FAILURE` of `<stdlib.h>`. -/
def EXIT_SUCCESS : Nat := 0
def EXIT_FAILURE : Nat := 1

/-- The constants of the upload interface; their header is not among these files, so
the command is embedded for arbitrary values of them. -/
structure upload_constants where
  TY_UPLOAD_WAIT : Nat
  TY_UPLOAD_NOCHECK : Nat
  TY_UPLOAD_NORESET : Nat
  TY_UPLOAD_MAX_FIRMWARES : Nat
  deriving DecidableEq, Repr

/-- One option of the command line: the string `ty_optline_next_option` returned for it,
and what `ty_optline_get_value` answers when it is called for this option. -/
structure optline_option where
  opt : String
  value : Option String
  deriving DecidableEq, Repr

/-- How the option loop of `upload` ends: by a `return`, or at the end of the options
with the values of the statics `upload_flags` and `firmware_format`. -/
inductive upload_options_end
  | returned (code : Nat)
  | parsed (upload_flags : Nat) (firmware_format : Option String)
  deriving DecidableEq, Repr

/-- The loop `while ((opt = ty_optline_next_option(&optl)))` of `upload`, from the given
values of `upload_flags` and `firmware_format`. -/
def upload_options (K : upload_constants) (parse_common_option : optline_option → Bool) :
    List optline_option → Nat → Option String → upload_options_end
  | [], upload_flags, firmware_format => .parsed upload_flags firmware_format
  | o :: rest, upload_flags, firmware_format =>
    if o.opt = "--help" then .returned EXIT_SUCCESS
    else if o.opt = "--wait" ∨ o.opt = "-w" then
      upload_options K parse_common_option rest (upload_flags ||| K.TY_UPLOAD_WAIT)
        firmware_format
    else if o.opt = "--nocheck" then
      upload_options K parse_common_option rest (upload_flags ||| K.TY_UPLOAD_NOCHECK)
        firmware_format
    else if o.opt = "--noreset" then
      upload_options K parse_common_option rest (upload_flags ||| K.TY_UPLOAD_NORESET)
        firmware_format
    else if o.opt = "--format" ∨ o.opt = "-f" then
      match o.value with
      | none => .returned EXIT_FAILURE
      | some format => upload_options K parse_common_option rest upload_flags (some format)
    else if !parse_common_option o then .returned EXIT_FAILURE
    else upload_options K parse_common_option rest upload_flags firmware_format

/-- The state of the firmware loop of `upload`: the filled slots `fws[0 .. fws_count)`
(so `fws_count` is the length of `fws`), the indices `fws_count` of the slots
`&fws[fws_count]` handed to `ty_firmware_load` so far, and how many arguments were
handed to it. -/
structure upload_firmwares (F : Type) where
  fws : List F
  writes : List Nat
  tried : Nat
  deriving DecidableEq, Repr

/-- The loop `while ((opt = ty_optline_consume_non_option(&optl)))` of `upload` over the
remaining non-option arguments; `ty_firmware_load opt firmware_format` is `none` when
the call returns a nonzero `r`. -/
def upload_load {F : Type} (K : upload_constants)
    (ty_firmware_load : String → Option String → Option F) (firmware_format : Option String) :
    List String → upload_firmwares F → upload_firmwares F
  | [], s => s
  | opt :: rest, s =>
    if s.fws.length ≥ K.TY_UPLOAD_MAX_FIRMWARES then s
    else
      match ty_firmware_load opt firmware_format with
      | some fw =>
        upload_load K ty_firmware_load firmware_format rest
          { fws := s.fws ++ [fw], writes := s.writes ++ [s.fws.length], tried := s.tried + 1 }
      | none =>
        upload_load K ty_firmware_load firmware_format rest
          { fws := s.fws, writes := s.writes ++ [s.fws.length], tried := s.tried + 1 }

/-- The arguments of the call `ty_upload(board, fws, fws_count, upload_flags, &task)`. -/
structure ty_upload_call (B F : Type) where
  board : B
  fws : List F
  fws_count : Nat
  flags : Nat
  deriving DecidableEq, Repr

/-- A run of `upload`: its exit code, the call of `ty_upload` it made if it made one, and
the slots it handed to `ty_firmware_load`. -/
structure upload_run (B F : Type) where
  exit_code : Nat
  call : Option (ty_upload_call B F)
  writes : List Nat
  tried : Nat
  deriving DecidableEq, Repr

/-- The function `upload`.  `options` and `non_options` are the command line as
`ty_optline` hands it over; `board` is what `get_board` stored (`none` when it returned
a negative value), `ty_upload_r` and `ty_task_join_r` are the return values of
`ty_upload` and `ty_task_join`.  The statics start as initialised: `upload_flags = 0`,
`firmware_format = NULL`. -/
def upload {B F : Type} (K : upload_constants) (parse_common_option : optline_option → Bool)
    (ty_firmware_load : String → Option String → Option F) (board : Option B)
    (ty_upload_r ty_task_join_r : Int)
    (options : List optline_option) (non_options : List String) : upload_run B F :=
  match upload_options K parse_common_option options 0 none with
  | .returned code => { exit_code := code, call := none, writes := [], tried := 0 }
  | .parsed upload_flags firmware_format =>
    let s := upload_load K ty_firmware_load firmware_format non_options
      { fws := [], writes := [], tried := 0 }
    if s.fws.length = 0 then
      { exit_code := EXIT_FAILURE, call := none, writes := s.writes, tried := s.tried }
    else
      match board with
      | none => { exit_code := EXIT_FAILURE, call := none, writes := s.writes, tried := s.tried }
      | some b =>
        let call : ty_upload_call B F :=
          { board := b, fws := s.fws, fws_count := s.fws.length, flags := upload_flags }
        if ty_upload_r < 0 then
          { exit_code := EXIT_FAILURE, call := some call, writes := s.writes, tried := s.tried }
        else
          { exit_code := if ty_task_join_r < 0 then EXIT_FAILURE else EXIT_SUCCESS,
            call := some call, writes := s.writes, tried := s.tried }

/-- Whether one of the given spellings occurs among the options. -/
def option_present (spellings : List String) (options : List optline_option) : Bool :=
  options.any (fun o => decide (o.opt ∈ spellings))

/-- The mask the usage text describes: the OR of the flag of each option present. -/
def flags_of_options (K : upload_constants) (options : List optline_option) : Nat :=
  (if option_present ["--wait", "-w"] options then K.TY_UPLOAD_WAIT else 0) |||
  (if option_present ["--nocheck"] options then K.TY_UPLOAD_NOCHECK else 0) |||
  (if option_present ["--noreset"] options then K.TY_UPLOAD_NORESET else 0)

/-- The format in force for the firmware loop: the value of the last `--format`/`-f`. -/
def format_of_options (K : upload_constants) (parse_common_option : optline_option → Bool)
    (options : List optline_option) : Option String :=
  match upload_options K parse_common_option options 0 none with
  | .returned _ => none
  | .parsed _ firmware_format => firmware_format

/-! ## `tyc/main.c` -/

/-- The enum `tyb_monitor_event` as `board_callback` switches on it (names without the
`TYB_MONITOR_EVENT_` prefix). -/
inductive tyb_monitor_event
  | ADDED
  | CHANGED
  | DISAPPEARED
  | DROPPED
  deriving DecidableEq, Repr

/-- The static `main_board` (`none` is `NULL`, a board is named by its address), with the
boards `board_callback` has passed to `tyb_board_ref` and to `tyb_board_unref`, in call
order. -/
structure board_selection where
  main_board : Option Nat
  refs : List Nat
  unrefs : List Nat
  deriving DecidableEq, Repr

/-- The statics before the callback has run: `main_board` is `NULL`. -/
def board_selection.initial : board_selection :=
  { main_board := none, refs := [], unrefs := [] }

/-- The function `board_callback(board, event, udata)`: the new statics and the return
value.  `tyb_board_matches_tag` is the library function of that name, `board_tag` the
static set by `--board` (`none` is `NULL`). -/
def board_callback (tyb_board_matches_tag : Nat → Option String → Bool)
    (board_tag : Option String) (s : board_selection) (board : Nat)
    (event : tyb_monitor_event) : board_selection × Int :=
  match event with
  | .ADDED =>
    if s.main_board = none ∧ tyb_board_matches_tag board board_tag = true then
      ({ main_board := some board, refs := s.refs ++ [board], unrefs := s.unrefs }, 0)
    else (s, 0)
  | .CHANGED => (s, 0)
  | .DISAPPEARED => (s, 0)
  | .DROPPED =>
    if s.main_board = some board then
      ({ main_board := none, refs := s.refs, unrefs := s.unrefs ++ [board] }, 0)
    else (s, 0)

/-- The monitor delivering a sequence of events to `board_callback`, one call each. -/
def deliver (tyb_board_matches_tag : Nat → Option String → Bool) (board_tag : Option String) :
    board_selection → List (Nat × tyb_monitor_event) → board_selection
  | s, [] => s
  | s, (board, event) :: rest =>
    deliver tyb_board_matches_tag board_tag
      (board_callback tyb_board_matches_tag board_tag s board event).1 rest

/-- How `get_board` returns. -/
inductive get_board_return
  /-- The negative value `init_manager` returned. -/
  | failed (r : Int)
  /-- Returned through `ty_error(TY_ERROR_NOT_FOUND, ...)`. -/
  | not_found
  /-- Returned 0 with `*rboard = tyb_board_ref(main_board)`. -/
  | board (rboard : Nat)
  deriving DecidableEq, Repr

/-- The function `get_board`, given the return value of `init_manager` and the value of
`main_board` after it. -/
def get_board (init_manager_r : Int) (s : board_selection) : get_board_return :=
  if init_manager_r < 0 then .failed init_manager_r
  else
    match s.main_board with
    | none => .not_found
    | some b => .board b

/-- The board of the first `ADDED` event whose board matches the tag. -/
def first_added_match (tyb_board_matches_tag : Nat → Option String → Bool)
    (board_tag : Option String) (events : List (Nat × tyb_monitor_event)) : Option Nat :=
  (events.find? (fun e => decide (e.2 = .ADDED) && tyb_board_matches_tag e.1 board_tag)).map
    (fun e => e.1)

/-- The board of the first `ADDED` event: the first detected board. -/
def first_added (events : List (Nat × tyb_monitor_event)) : Option Nat :=
  (events.find? (fun e => decide (e.2 = .ADDED))).map (fun e => e.1)

/-! ## `src/system_unix.c`: `get_basename` and `_ty_statat` -/

/-- The character a C string holds at index `i`: the characters before the terminating
NUL are the list, and the NUL itself is read at the index `strlen`. -/
def char_at (path : List Char) (i : Nat) : Char := path.getD i (Char.ofNat 0)

/-- The loop `while (len && path[len - 1] == '/') len--` of `get_basename`, started at
`len`: the value of `len` when it stops. -/
def strip_trailing_slashes (path : List Char) : Nat → Nat
  | 0 => 0
  | len + 1 => if char_at path len = '/' then strip_trailing_slashes path len else len + 1

/-- The libc function `memrchr(s, c, n)`: the index of the last `c` among the first `n`
characters of `s`, `none` (a null pointer) when there is none. -/
def memrchr (s : List Char) (c : Char) : Nat → Option Nat
  | 0 => none
  | n + 1 => if char_at s n = c then some n else memrchr s c n

/-- The value of `len` in `get_basename` after its loop, from `len = strlen(path)`. -/
def get_basename_len (path : List Char) : Nat :=
  strip_trailing_slashes path path.length

/-- The function `get_basename(path)`: the offset into `path` of the pointer it returns
(`name = memrchr(path, '/', len); if (!name++) name = path;`). -/
def get_basename (path : List Char) : Nat :=
  match memrchr path '/' (get_basename_len path) with
  | none => 0
  | some i => i + 1

/-- The values of `EACCES`, `EIO`, `ENOENT` and `ENOTDIR` in `<errno.h>`. -/
def EACCES : Nat := 13
def EIO : Nat := 5
def ENOENT : Nat := 2
def ENOTDIR : Nat := 20

/-- The value of `AT_SYMLINK_NOFOLLOW` in `<fcntl.h>`. -/
def AT_SYMLINK_NOFOLLOW : Nat := 0x100

/-- The file type bits of `st_mode` in `<sys/stat.h>`. -/
def S_IFMT : Nat := 0o170000
def S_IFDIR : Nat := 0o040000
def S_IFREG : Nat := 0o100000
def S_IFLNK : Nat := 0o120000

/-- The general error kinds of the enum `ty_err`, among them the four `_ty_statat`
passes to `ty_error`. -/
inductive ty_err
  | TY_ERROR_PARAM
  | TY_ERROR_UNSUPPORTED
  | TY_ERROR_NOT_FOUND
  | TY_ERROR_ACCESS
  | TY_ERROR_IO
  | TY_ERROR_SYSTEM
  deriving DecidableEq, Repr

open ty_err

/-- The enum `ty_file_type` (names without the `TY_FILE_` prefix). -/
inductive ty_file_type
  | REGULAR
  | DIRECTORY
  | LINK
  | SPECIAL
  deriving DecidableEq, Repr

/-- The struct `ty_file_info` with the fields the function stores. -/
structure ty_file_info where
  type : ty_file_type
  size : Nat
  mtime : Nat
  dev : Nat
  ino : Nat
  flags : Nat
  deriving DecidableEq, Repr

/-- The fields of `struct stat` the function reads. -/
structure stat_buf where
  st_mode : Nat
  st_size : Int
  st_mtim_tv_sec : Int
  st_mtim_tv_nsec : Int
  st_dev : Nat
  st_ino : Nat
  deriving DecidableEq, Repr

/-- The system call `_ty_statat` makes. -/
inductive stat_call
  | fstatat (fd : Int) (path : List Char) (flags : Nat)
  | stat (path : List Char)
  | lstat (path : List Char)
  deriving DecidableEq, Repr

/-- What the system call answered: its return value, `errno`, and the buffer `sb`. -/
structure stat_reply where
  r : Int
  errno : Nat
  sb : stat_buf
  deriving DecidableEq, Repr

/-- How `_ty_statat` returns. -/
inductive ty_statat_return
  /-- Returned through `ty_error(err, ...)`. -/
  | error (err : ty_err)
  /-- Returned by `return 0`. -/
  | success
  deriving DecidableEq, Repr

/-- The call chosen by the first `if` of `_ty_statat`. -/
def ty_statat_call (fd : Int) (path : List Char) (follow : Bool) : stat_call :=
  if fd ≥ 0 then .fstatat fd path (if !follow then AT_SYMLINK_NOFOLLOW else 0)
  else if follow then .stat path
  else .lstat path

/-- The function `_ty_statat(fd, path, info, follow)`: its return value and the contents
of `*info` afterwards.  `sys` answers the system call; `TY_FILE_HIDDEN` is the flag of
that name, whose header is not among these files. -/
def _ty_statat (TY_FILE_HIDDEN : Nat) (sys : stat_call → stat_reply) (fd : Int)
    (path : List Char) (info : ty_file_info) (follow : Bool) :
    ty_statat_return × ty_file_info :=
  let reply := sys (ty_statat_call fd path follow)
  if reply.r < 0 then
    if reply.errno = EACCES then (.error TY_ERROR_ACCESS, info)
    else if reply.errno = EIO then (.error TY_ERROR_IO, info)
    else if reply.errno = ENOENT then (.error TY_ERROR_NOT_FOUND, info)
    else if reply.errno = ENOTDIR then (.error TY_ERROR_NOT_FOUND, info)
    else (.error TY_ERROR_SYSTEM, info)
  else
    let sb := reply.sb
    let type : ty_file_type :=
      if sb.st_mode &&& S_IFMT = S_IFDIR then .DIRECTORY
      else if sb.st_mode &&& S_IFMT = S_IFREG then .REGULAR
      else if sb.st_mode &&& S_IFMT = S_IFLNK then .LINK
      else .SPECIAL
    let flags : Nat := 0
    let flags := if char_at path (get_basename path) = '.' then flags ||| TY_FILE_HIDDEN else flags
    (.success,
     { type := type,
       size := to_uint64 sb.st_size,
       mtime := (to_uint64 sb.st_mtim_tv_sec * 1000 + to_uint64 sb.st_mtim_tv_nsec / 1000000)
         % 2 ^ 64,
       dev := sb.st_dev,
       ino := sb.st_ino,
       flags := flags })

/-! ## Theorems -/

/-! ### Capabilities -/

theorem value_eq_two_pow_bit (c : ty_board_capability) : c.value = 2 ^ c.bit := by
  cases c <;> rfl

theorem bit_lt_five (c : ty_board_capability) : c.bit < 5 := by
  cases c <;> decide

theorem bit_injective {c d : ty_board_capability} (h : c.bit = d.bit) : c = d := by
  cases c <;> cases d <;> first | rfl | (exact absurd h (by decide))

theorem testBit_value (c d : ty_board_capability) :
    c.value.testBit d.bit = decide (c = d) := by
  cases c <;> cases d <;> decide

theorem testBit_capability_mask (l : List ty_board_capability) (d : ty_board_capability) :
    (capability_mask l).testBit d.bit = decide (d ∈ l) := by
  induction l with
  | nil => simp [capability_mask]
  | cons c cs ih =>
    simp only [capability_mask, Nat.testBit_or, ih, testBit_value, List.mem_cons]
    by_cases h : c = d
    · simp [h]
    · have h2 : ¬ d = c := fun e => h e.symm
      simp [h, h2]

theorem and_two_pow_ne_zero_iff (m k : Nat) (hk : k < 32) :
    ((m % 2 ^ 32) &&& 2 ^ k) ≠ 0 ↔ m.testBit k = true := by
  constructor
  · intro h
    obtain ⟨i, hi⟩ := Nat.ne_zero_implies_bit_true h
    rw [Nat.testBit_and, Nat.testBit_two_pow, Nat.testBit_mod_two_pow] at hi
    simp only [Bool.and_eq_true, decide_eq_true_eq] at hi
    obtain ⟨⟨_, h1⟩, h2⟩ := hi
    rw [h2]; exact h1
  · intro h hz
    have : ((m % 2 ^ 32) &&& 2 ^ k).testBit k = true := by
      rw [Nat.testBit_and, Nat.testBit_two_pow_self, Nat.testBit_mod_two_pow]
      simp [hk, h]
    rw [hz] at this
    simp at this

/-- C1: the capability constants have the values Identify=1, Upload=2, Reset=4, Serial=8,
Reboot=16; each is a single bit (a power of two), different capabilities have different
bits, and the OR-ed masks of two collections of capabilities are equal only if the
collections have the same members. -/
theorem capability_values_single_bits (l₁ l₂ : List ty_board_capability)
    (h : capability_mask l₁ = capability_mask l₂) :
    (ty_board_capability.IDENTIFY.value = 1 ∧ ty_board_capability.UPLOAD.value = 2 ∧
      ty_board_capability.RESET.value = 4 ∧ ty_board_capability.SERIAL.value = 8 ∧
      ty_board_capability.REBOOT.value = 16) ∧
    (∀ c : ty_board_capability, c.value = 2 ^ c.bit) ∧
    (∀ c d : ty_board_capability, c.value = d.value → c = d) ∧
    (∀ c : ty_board_capability, c ∈ l₁ ↔ c ∈ l₂) ∧
    l₁.toFinset = l₂.toFinset := by
  have hmem : ∀ c : ty_board_capability, c ∈ l₁ ↔ c ∈ l₂ := by
    intro c
    have h1 := testBit_capability_mask l₁ c
    have h2 := testBit_capability_mask l₂ c
    rw [h] at h1
    rw [h1] at h2
    simpa using h2
  refine ⟨⟨rfl, rfl, rfl, rfl, rfl⟩, value_eq_two_pow_bit, ?_, hmem, ?_⟩
  · intro c d hcd
    cases c <;> cases d <;> first | rfl | (exact absurd hcd (by decide))
  · ext c
    simp [hmem c]

theorem capability_values_single_bits_witness :
    capability_mask [.UPLOAD, .REBOOT, .UPLOAD] = capability_mask [.REBOOT, .UPLOAD] ∧
    ([ty_board_capability.UPLOAD, .REBOOT, .UPLOAD].toFinset
      = [ty_board_capability.REBOOT, .UPLOAD].toFinset) :=
  ⟨by decide,
   (capability_values_single_bits [.UPLOAD, .REBOOT, .UPLOAD] [.REBOOT, .UPLOAD]
      (by decide)).2.2.2.2⟩

/-- C5: for every capability mask `m` and capability `c`, `ty_board_has_capability`
answers true exactly when bit `c` of `m` is set, so two masks that agree on that bit get
the same answer whatever their other bits are. -/
theorem has_capability_iff_bit (m : Nat) (c : ty_board_capability) :
    (ty_board_has_capability m c = true ↔ m.testBit c.bit = true) ∧
    (ty_board_has_capability m c = true ↔ m &&& c.value = c.value) ∧
    (∀ m₂ : Nat, m₂.testBit c.bit = m.testBit c.bit →
      ty_board_has_capability m₂ c = ty_board_has_capability m c) := by
  have key : ∀ n : Nat, ty_board_has_capability n c = true ↔ n.testBit c.bit = true := by
    intro n
    unfold ty_board_has_capability
    rw [value_eq_two_pow_bit, bne_iff_ne]
    exact and_two_pow_ne_zero_iff n c.bit (lt_trans (bit_lt_five c) (by decide))
  refine ⟨key m, ?_, ?_⟩
  · rw [key m, value_eq_two_pow_bit]
    constructor
    · intro h
      apply Nat.eq_of_testBit_eq
      intro i
      rw [Nat.testBit_and, Nat.testBit_two_pow]
      by_cases hi : c.bit = i
      · subst hi; simp [h]
      · simp [hi]
    · intro h
      have := congrArg (fun x => x.testBit c.bit) h
      simp only [Nat.testBit_and, Nat.testBit_two_pow_self, Bool.and_true] at this
      exact this
  · intro m₂ h
    have h1 := key m
    have h2 := key m₂
    rw [h] at h2
    cases hm : ty_board_has_capability m c <;> cases hm2 : ty_board_has_capability m₂ c <;>
      simp_all

/-! ### The clock -/

/-- C10 (code at a failing input): one millisecond after the clock's origin `ty_millis`
returns 0 where the reading in whole milliseconds is 1, and at the largest sub-second
reading it returns 99 where the whole milliseconds are 999: the nanoseconds are divided
by 10000000, not by 1000000. -/
theorem ty_millis_divides_by_ten_million :
    ty_millis 0 1000000 = 0 ∧ whole_millis 0 1000000 = 1 ∧
    ty_millis 0 999999999 = 99 ∧ whole_millis 0 999999999 = 999 := by
  refine ⟨?_, ?_, ?_, ?_⟩ <;> decide

/-! ### `ty_poll` -/

theorem ty_poll_restart_calls (set : ty_descriptor_set) (call : poll_call)
    (replies : List poll_reply) :
    (ty_poll_restart set call replies).calls ≠ [] ∧
    ∀ c ∈ (ty_poll_restart set call replies).calls, c = call := by
  induction replies with
  | nil => simp [ty_poll_restart]
  | cons reply replies ih =>
    unfold ty_poll_restart
    split_ifs <;> simp
    exact ih.2

theorem ty_poll_restart_interrupted (set : ty_descriptor_set) (call : poll_call)
    (reply : poll_reply) (replies : List poll_reply) (h : reply.interrupted) :
    (ty_poll_restart set call (reply :: replies)).result
      = (ty_poll_restart set call replies).result ∧
    (ty_poll_restart set call (reply :: replies)).calls
      = call :: (ty_poll_restart set call replies).calls := by
  obtain ⟨hr, he⟩ := h
  simp [ty_poll_restart, hr, he]

theorem ty_poll_restart_interrupts (set : ty_descriptor_set) (call : poll_call)
    (interrupts replies : List poll_reply) (h : ∀ x ∈ interrupts, x.interrupted) :
    (ty_poll_restart set call (interrupts ++ replies)).result
      = (ty_poll_restart set call replies).result ∧
    (ty_poll_restart set call (interrupts ++ replies)).calls.length
      = interrupts.length + (ty_poll_restart set call replies).calls.length := by
  induction interrupts with
  | nil => simp
  | cons x xs ih =>
    have hx : x.interrupted := h x (List.mem_cons_self _ _)
    have hxs := ih (fun y hy => h y (List.mem_cons_of_mem _ hy))
    have step := ty_poll_restart_interrupted set call x (xs ++ replies) hx
    rw [List.cons_append, step.1, step.2, hxs.1, List.length_cons, hxs.2, List.length_cons]
    exact ⟨rfl, by omega⟩

theorem ty_poll_restart_never_eintr (set : ty_descriptor_set) (call : poll_call)
    (replies : List poll_reply) (e : Nat)
    (h : (ty_poll_restart set call replies).result = some (.system_error e)) :
    e ≠ EINTR := by
  induction replies with
  | nil => simp [ty_poll_restart] at h
  | cons reply replies ih =>
    unfold ty_poll_restart at h
    split_ifs at h with h1 h2 h3
    · exact ih h
    · simp only [Option.some.injEq, ty_poll_return.system_error.injEq] at h
      rw [← h]; exact h2
    · simp at h
    · simp only [Option.some.injEq] at h
      intro _
      have : ∀ i n, ty_poll_scan set reply.revents i n ≠ .system_error e := by
        intro i n
        induction n generalizing i with
        | zero => simp [ty_poll_scan]
        | succ n ihn =>
          unfold ty_poll_scan
          split_ifs
          · simp
          · exact ihn (i + 1)
      exact this 0 set.count h

theorem ty_poll_scan_first (set : ty_descriptor_set) (revents : List Nat) (k : Nat)
    (hk : ty_poll_ready (revents.getD k 0) = true) :
    ∀ n i, i ≤ k → k < i + n →
      (∀ j, i ≤ j → j < k → ty_poll_ready (revents.getD j 0) = false) →
      ty_poll_scan set revents i n = .value (set.id.getD k 0) := by
  intro n
  induction n with
  | zero => intro i h1 h2; omega
  | succ n ih =>
    intro i h1 h2 hmin
    unfold ty_poll_scan
    by_cases hik : i = k
    · subst hik; rw [if_pos hk]
    · have hlt : i < k := lt_of_le_of_ne h1 hik
      rw [if_neg (by rw [hmin i le_rfl hlt]; exact Bool.false_ne_true)]
      exact ih (i + 1) hlt (by omega) (fun j hj hjk => hmin j (by omega) hjk)

theorem ty_poll_ready_ne_zero {revents : Nat} (h : ty_poll_ready revents = true) :
    revents ≠ 0 := by
  intro hz
  subst hz
  simp [ty_poll_ready] at h

theorem poll_reply_posix_pos (nfds : Nat) (reply : poll_reply) (i : Nat) (hi : i < nfds)
    (hready : ty_poll_ready (reply.revents.getD i 0) = true)
    (hposix : poll_reply_posix nfds reply) : 0 < reply.r := by
  unfold poll_reply_posix at hposix
  rw [hposix]
  have hmem : i ∈ (List.range nfds).filter (fun i => reply.revents.getD i 0 != 0) := by
    rw [List.mem_filter]
    exact ⟨List.mem_range.mpr hi, by simpa using ty_poll_ready_ne_zero hready⟩
  have := List.length_pos_of_mem hmem
  exact_mod_cast this

theorem ty_poll_unfold (set : ty_descriptor_set) (timeout : Int) (replies : List poll_reply)
    (h1 : 1 ≤ set.count) (h64 : set.count ≤ 64) :
    ty_poll set timeout replies
      = ty_poll_restart set
          { pfd := ty_poll_fill set, nfds := set.count,
            timeout := if timeout < 0 then -1 else timeout } replies := by
  unfold ty_poll
  rw [if_neg (by omega)]

/-- C2: for every timeout given to `ty_poll` (on a set of 1 to 64 descriptors), `poll` is
called, and every call gets -1 as its wait when the timeout is negative and the timeout
itself when it is zero or positive; the only negative wait `poll` ever gets is -1. -/
theorem ty_poll_wait_handed_to_poll (set : ty_descriptor_set) (timeout : Int)
    (replies : List poll_reply) (h1 : 1 ≤ set.count) (h64 : set.count ≤ 64) :
    (ty_poll set timeout replies).calls ≠ [] ∧
    ∀ c ∈ (ty_poll set timeout replies).calls,
      (timeout < 0 → c.timeout = -1) ∧ (0 ≤ timeout → c.timeout = timeout) ∧
      (c.timeout < 0 → c.timeout = -1) := by
  rw [ty_poll_unfold set timeout replies h1 h64]
  refine ⟨(ty_poll_restart_calls _ _ _).1, ?_⟩
  intro c hc
  rw [(ty_poll_restart_calls _ _ _).2 c hc]
  dsimp only
  refine ⟨?_, ?_, ?_⟩ <;> intro h <;> split_ifs at h ⊢ <;> omega

theorem ty_poll_wait_handed_to_poll_witness :
    (ty_poll { count := 1, desc := [3], id := [7] } (-5)
        [{ r := -1, errno := 4, revents := [0] }, { r := 0, errno := 0, revents := [0] }]).calls
      = [{ pfd := [{ fd := 3, events := 1 }], nfds := 1, timeout := -1 },
         { pfd := [{ fd := 3, events := 1 }], nfds := 1, timeout := -1 }] ∧
    ∀ c ∈ (ty_poll { count := 1, desc := [3], id := [7] } (-5)
        [{ r := -1, errno := 4, revents := [0] }, { r := 0, errno := 0, revents := [0] }]).calls,
      ((-5 : Int) < 0 → c.timeout = -1) ∧ (0 ≤ (-5 : Int) → c.timeout = -5) ∧
      (c.timeout < 0 → c.timeout = -1) :=
  ⟨by decide,
   (ty_poll_wait_handed_to_poll { count := 1, desc := [3], id := [7] } (-5)
      [{ r := -1, errno := 4, revents := [0] }, { r := 0, errno := 0, revents := [0] }]
      (by decide) (by decide)).2⟩

theorem ty_poll_fill_length (set : ty_descriptor_set) :
    (ty_poll_fill set).length = set.count := by
  simp [ty_poll_fill]

theorem ty_poll_fill_getElem? (set : ty_descriptor_set) (k : Nat) (hk : k < set.count) :
    (ty_poll_fill set)[k]? = some { fd := set.desc.getD k 0, events := POLLIN } := by
  unfold ty_poll_fill
  rw [List.getElem?_map, List.getElem?_range hk]
  rfl

/-- C4: for every descriptor set (1 to 64 entries) and timeout, when `poll` returns 0 (the
wait elapsed with nothing ready), after any number of interrupted waits, `ty_poll`
returns 0 as a plain value, not through `ty_error`, having called `poll` once more than
it was interrupted; an interrupted wait is restarted (the run goes on with the next
answer of `poll`), and no run of `ty_poll` ends in the error of an `EINTR`. -/
theorem ty_poll_timeout_is_not_an_error (set : ty_descriptor_set) (timeout : Int)
    (interrupts : List poll_reply) (reply : poll_reply) (replies : List poll_reply)
    (h1 : 1 ≤ set.count) (h64 : set.count ≤ 64)
    (hint : ∀ x ∈ interrupts, x.interrupted) (h0 : reply.r = 0) :
    (ty_poll set timeout (interrupts ++ reply :: replies)).result = some (.value 0) ∧
    (ty_poll set timeout (interrupts ++ reply :: replies)).calls.length
      = interrupts.length + 1 ∧
    (∀ (x : poll_reply) (more : List poll_reply), x.interrupted →
      (ty_poll set timeout (x :: more)).result = (ty_poll set timeout more).result) ∧
    (∀ (answers : List poll_reply) (e : Nat),
      (ty_poll set timeout answers).result = some (.system_error e) → e ≠ EINTR) := by
  have hlast : ty_poll_restart set
      { pfd := ty_poll_fill set, nfds := set.count,
        timeout := if timeout < 0 then -1 else timeout } (reply :: replies)
      = { calls := [{ pfd := ty_poll_fill set, nfds := set.count,
                      timeout := if timeout < 0 then -1 else timeout }],
          result := some (.value 0) } := by
    unfold ty_poll_restart
    rw [if_neg (by omega), if_pos h0]
  have hpre := ty_poll_restart_interrupts set
      { pfd := ty_poll_fill set, nfds := set.count,
        timeout := if timeout < 0 then -1 else timeout } interrupts (reply :: replies) hint
  refine ⟨?_, ?_, ?_, ?_⟩
  · rw [ty_poll_unfold set timeout _ h1 h64, hpre.1, hlast]
  · rw [ty_poll_unfold set timeout _ h1 h64, hpre.2, hlast]
    rfl
  · intro x more hx
    rw [ty_poll_unfold set timeout _ h1 h64, ty_poll_unfold set timeout _ h1 h64]
    exact (ty_poll_restart_interrupted set _ x more hx).1
  · intro answers e he
    rw [ty_poll_unfold set timeout _ h1 h64] at he
    exact ty_poll_restart_never_eintr set _ answers e he

theorem ty_poll_timeout_is_not_an_error_witness :
    (ty_poll { count := 2, desc := [3, 4], id := [1, 2] } 0
      ([{ r := -1, errno := 4, revents := [] }, { r := -1, errno := 4, revents := [] }]
        ++ { r := 0, errno := 0, revents := [0, 0] } :: [])).result = some (.value 0) :=
  (ty_poll_timeout_is_not_an_error { count := 2, desc := [3, 4], id := [1, 2] } 0
    [{ r := -1, errno := 4, revents := [] }, { r := -1, errno := 4, revents := [] }]
    { r := 0, errno := 0, revents := [0, 0] } []
    (by decide) (by decide) (by decide) (by decide)).1

/-! ### `upload`: the firmware loop -/

theorem upload_load_fws {F : Type} (K : upload_constants)
    (load : String → Option String → Option F) (format : Option String)
    (args : List String) (s : upload_firmwares F) :
    (upload_load K load format args s).fws
      = s.fws ++ (args.filterMap (fun a => load a format)).take
          (K.TY_UPLOAD_MAX_FIRMWARES - s.fws.length) := by
  induction args generalizing s with
  | nil => simp [upload_load]
  | cons opt rest ih =>
    unfold upload_load
    by_cases hfull : s.fws.length ≥ K.TY_UPLOAD_MAX_FIRMWARES
    · rw [if_pos hfull, Nat.sub_eq_zero_of_le hfull]
      simp
    · rw [if_neg hfull]
      have hsub : K.TY_UPLOAD_MAX_FIRMWARES - s.fws.length
          = (K.TY_UPLOAD_MAX_FIRMWARES - (s.fws.length + 1)) + 1 := by omega
      cases hload : load opt format with
      | none =>
        simp only [ih, List.filterMap_cons, hload]
      | some fw =>
        simp only [ih, List.filterMap_cons, hload, List.length_append, List.length_singleton]
        rw [hsub, List.take_succ_cons, List.append_assoc, List.singleton_append]

theorem upload_load_tried {F : Type} (K : upload_constants)
    (load : String → Option String → Option F) (format : Option String)
    (args : List String) (s : upload_firmwares F) :
    ∃ k, k ≤ args.length ∧
      (upload_load K load format args s).tried = s.tried + k ∧
      (upload_load K load format args s).fws
        = s.fws ++ (args.take k).filterMap (fun a => load a format) ∧
      (k < args.length →
        K.TY_UPLOAD_MAX_FIRMWARES ≤ (upload_load K load format args s).fws.length) := by
  induction args generalizing s with
  | nil => exact ⟨0, le_refl _, by simp [upload_load], by simp [upload_load], by simp⟩
  | cons opt rest ih =>
    unfold upload_load
    by_cases hfull : s.fws.length ≥ K.TY_UPLOAD_MAX_FIRMWARES
    · rw [if_pos hfull]
      exact ⟨0, Nat.zero_le _, rfl, by simp, fun _ => hfull⟩
    · rw [if_neg hfull]
      cases hload : load opt format with
      | none =>
        obtain ⟨k, hk, ht, hf, hl⟩ := ih
          { fws := s.fws, writes := s.writes ++ [s.fws.length], tried := s.tried + 1 }
        refine ⟨k + 1, by simpa using hk, ?_, ?_, ?_⟩
        · simp only [ht]; omega
        · simp only [hf, List.take_succ_cons, List.filterMap_cons, hload]
        · intro hlt
          exact hl (by simpa using hlt)
      | some fw =>
        obtain ⟨k, hk, ht, hf, hl⟩ := ih
          { fws := s.fws ++ [fw], writes := s.writes ++ [s.fws.length], tried := s.tried + 1 }
        refine ⟨k + 1, by simpa using hk, ?_, ?_, ?_⟩
        · simp only [ht]; omega
        · simp only [hf, List.take_succ_cons, List.filterMap_cons, hload, List.append_assoc,
            List.singleton_append]
        · intro hlt
          exact hl (by simpa using hlt)

theorem upload_load_writes {F : Type} (K : upload_constants)
    (load : String → Option String → Option F) (format : Option String)
    (args : List String) (s : upload_firmwares F)
    (hs : ∀ i ∈ s.writes, i < K.TY_UPLOAD_MAX_FIRMWARES) :
    ∀ i ∈ (upload_load K load format args s).writes, i < K.TY_UPLOAD_MAX_FIRMWARES := by
  induction args generalizing s with
  | nil => simpa [upload_load] using hs
  | cons opt rest ih =>
    unfold upload_load
    by_cases hfull : s.fws.length ≥ K.TY_UPLOAD_MAX_FIRMWARES
    · rw [if_pos hfull]; exact hs
    · rw [if_neg hfull]
      have hnew : ∀ i ∈ s.writes ++ [s.fws.length], i < K.TY_UPLOAD_MAX_FIRMWARES := by
        intro i hi
        rcases List.mem_append.mp hi with h | h
        · exact hs i h
        · rw [List.mem_singleton.mp h]; omega
      cases hload : load opt format with
      | none => exact ih _ hnew
      | some fw => exact ih _ hnew

theorem upload_call_some {B F : Type} (K : upload_constants)
    (pco : optline_option → Bool) (load : String → Option String → Option F)
    (board : Option B) (ur jr : Int) (options : List optline_option)
    (non_options : List String) (call : ty_upload_call B F)
    (h : (upload K pco load board ur jr options non_options).call = some call) :
    ∃ flags format, upload_options K pco options 0 none = .parsed flags format ∧
      call.flags = flags ∧
      call.fws = (upload_load K load format non_options
        { fws := [], writes := [], tried := 0 }).fws ∧
      call.fws_count = call.fws.length ∧ call.fws.length ≠ 0 ∧
      (upload K pco load board ur jr options non_options).tried
        = (upload_load K load format non_options
            { fws := [], writes := [], tried := 0 }).tried := by
  unfold upload at h ⊢
  cases hopt : upload_options K pco options 0 none with
  | returned code => rw [hopt] at h; simp at h
  | parsed flags format =>
    rw [hopt] at h
    refine ⟨flags, format, rfl, ?_⟩
    simp only at h ⊢
    by_cases hlen : (upload_load K load format non_options
        { fws := [], writes := [], tried := 0 }).fws.length = 0
    · rw [if_pos hlen] at h; simp at h
    · rw [if_neg hlen] at h ⊢
      cases board with
      | none => simp at h
      | some b =>
        simp only at h ⊢
        by_cases hur : ur < 0
        · rw [if_pos hur] at h ⊢
          simp only [Option.some.injEq] at h
          subst h
          exact ⟨rfl, rfl, rfl, hlen, rfl⟩
        · rw [if_neg hur] at h ⊢
          simp only [Option.some.injEq] at h
          subst h
          exact ⟨rfl, rfl, rfl, hlen, rfl⟩

theorem upload_writes_cases {B F : Type} (K : upload_constants)
    (pco : optline_option → Bool) (load : String → Option String → Option F)
    (board : Option B) (ur jr : Int) (options : List optline_option)
    (non_options : List String) :
    (upload K pco load board ur jr options non_options).writes = [] ∨
    ∃ format, (upload K pco load board ur jr options non_options).writes
      = (upload_load K load format non_options { fws := [], writes := [], tried := 0 }).writes := by
  unfold upload
  cases hopt : upload_options K pco options 0 none with
  | returned code => left; rfl
  | parsed flags format =>
    right
    refine ⟨format, ?_⟩
    simp only
    split_ifs <;> cases board <;> rfl

/-- C6: for every command line, every slot `fws[fws_count]` the upload command hands to
`ty_firmware_load` is inside the array (index below `TY_UPLOAD_MAX_FIRMWARES`); and when
`ty_upload` is called, it gets between 1 and `TY_UPLOAD_MAX_FIRMWARES` firmwares, which
are exactly the successfully loaded files, in command-line order, among the arguments
the loop tried to load; those are the first `TY_UPLOAD_MAX_FIRMWARES` loadable
arguments, and arguments are left over only when the array is full. -/
theorem upload_hands_over_loaded_firmwares {B F : Type} (K : upload_constants)
    (pco : optline_option → Bool) (load : String → Option String → Option F)
    (board : Option B) (ur jr : Int) (options : List optline_option)
    (non_options : List String) :
    (∀ i ∈ (upload K pco load board ur jr options non_options).writes,
      i < K.TY_UPLOAD_MAX_FIRMWARES) ∧
    ∀ call, (upload K pco load board ur jr options non_options).call = some call →
      call.fws_count = call.fws.length ∧
      1 ≤ call.fws_count ∧ call.fws_count ≤ K.TY_UPLOAD_MAX_FIRMWARES ∧
      (upload K pco load board ur jr options non_options).tried ≤ non_options.length ∧
      call.fws = (non_options.take (upload K pco load board ur jr options non_options).tried
        ).filterMap (fun a => load a (format_of_options K pco options)) ∧
      call.fws = (non_options.filterMap (fun a => load a (format_of_options K pco options))
        ).take K.TY_UPLOAD_MAX_FIRMWARES ∧
      ((upload K pco load board ur jr options non_options).tried < non_options.length →
        call.fws_count = K.TY_UPLOAD_MAX_FIRMWARES) := by
  constructor
  · intro i hi
    rcases upload_writes_cases K pco load board ur jr options non_options with h | ⟨format, h⟩
    · rw [h] at hi; simp at hi
    · rw [h] at hi
      exact upload_load_writes K load format non_options _ (by simp) i hi
  · intro call hcall
    obtain ⟨flags, format, hopt, -, hfws, hcount, hne, htried⟩ :=
      upload_call_some K pco load board ur jr options non_options call hcall
    have hformat : format_of_options K pco options = format := by
      unfold format_of_options; rw [hopt]
    have htake := upload_load_fws K load format non_options
      { fws := [], writes := [], tried := 0 }
    obtain ⟨k, hk, ht, hf, hl⟩ := upload_load_tried K load format non_options
      { fws := [], writes := [], tried := 0 }
    simp only [List.nil_append, List.length_nil, Nat.sub_zero, Nat.zero_add] at htake ht hf
    rw [hformat, htried, ht, hcount, hfws]
    have hle : (upload_load K load format non_options
        { fws := [], writes := [], tried := 0 }).fws.length ≤ K.TY_UPLOAD_MAX_FIRMWARES := by
      rw [htake, List.length_take]; exact Nat.min_le_left _ _
    rw [hfws] at hne
    refine ⟨rfl, by omega, hle, hk, hf, htake, ?_⟩
    intro hlt
    exact le_antisymm hle (hl hlt)

theorem upload_hands_over_loaded_firmwares_witness :
    (upload (B := Nat) (F := String)
      { TY_UPLOAD_WAIT := 1, TY_UPLOAD_NOCHECK := 2, TY_UPLOAD_NORESET := 4,
        TY_UPLOAD_MAX_FIRMWARES := 2 }
      (fun _ => false) (fun a _ => if a = "bad.hex" then none else some a) (some 7) 0 0
      [{ opt := "-w", value := none }]
      ["a.hex", "bad.hex", "b.hex", "c.hex", "d.hex"])
      = { exit_code := 0,
          call := some { board := 7, fws := ["a.hex", "b.hex"], fws_count := 2, flags := 1 },
          writes := [0, 1, 1], tried := 3 } ∧
    ∀ i ∈ (upload (B := Nat) (F := String)
      { TY_UPLOAD_WAIT := 1, TY_UPLOAD_NOCHECK := 2, TY_UPLOAD_NORESET := 4,
        TY_UPLOAD_MAX_FIRMWARES := 2 }
      (fun _ => false) (fun a _ => if a = "bad.hex" then none else some a) (some 7) 0 0
      [{ opt := "-w", value := none }]
      ["a.hex", "bad.hex", "b.hex", "c.hex", "d.hex"]).writes, i < 2 :=
  ⟨by decide,
   (upload_hands_over_loaded_firmwares (B := Nat) (F := String)
      { TY_UPLOAD_WAIT := 1, TY_UPLOAD_NOCHECK := 2, TY_UPLOAD_NORESET := 4,
        TY_UPLOAD_MAX_FIRMWARES := 2 }
      (fun _ => false) (fun a _ => if a = "bad.hex" then none else some a) (some 7) 0 0
      [{ opt := "-w", value := none }]
      ["a.hex", "bad.hex", "b.hex", "c.hex", "d.hex"]).1⟩

/-! ### `upload`: the option loop -/

theorem lor_flag_first (f W x y : Nat) (p : Bool) :
    (f ||| W) ||| ((if p then W else 0) ||| x ||| y) = f ||| (W ||| x ||| y) := by
  apply Nat.eq_of_testBit_eq
  intro i
  cases p <;>
    simp only [Nat.testBit_or, Bool.false_eq_true, if_true, if_false, Nat.zero_testBit] <;>
    cases f.testBit i <;> cases W.testBit i <;> cases x.testBit i <;> cases y.testBit i <;> rfl

theorem lor_flag_second (f N x y : Nat) (p : Bool) :
    (f ||| N) ||| (x ||| (if p then N else 0) ||| y) = f ||| (x ||| N ||| y) := by
  apply Nat.eq_of_testBit_eq
  intro i
  cases p <;>
    simp only [Nat.testBit_or, Bool.false_eq_true, if_true, if_false, Nat.zero_testBit] <;>
    cases f.testBit i <;> cases N.testBit i <;> cases x.testBit i <;> cases y.testBit i <;> rfl

theorem lor_flag_third (f N x y : Nat) (p : Bool) :
    (f ||| N) ||| (x ||| y ||| (if p then N else 0)) = f ||| (x ||| y ||| N) := by
  apply Nat.eq_of_testBit_eq
  intro i
  cases p <;>
    simp only [Nat.testBit_or, Bool.false_eq_true, if_true, if_false, Nat.zero_testBit] <;>
    cases f.testBit i <;> cases N.testBit i <;> cases x.testBit i <;> cases y.testBit i <;> rfl

theorem option_present_cons (spellings : List String) (o : optline_option)
    (rest : List optline_option) :
    option_present spellings (o :: rest)
      = (decide (o.opt ∈ spellings) || option_present spellings rest) := by
  simp [option_present]

theorem upload_options_flags (K : upload_constants) (pco : optline_option → Bool)
    (options : List optline_option) :
    ∀ (f : Nat) (fmt : Option String) (f₁ : Nat) (fmt₁ : Option String),
      upload_options K pco options f fmt = .parsed f₁ fmt₁ →
      f₁ = f ||| flags_of_options K options := by
  induction options with
  | nil =>
    intro f fmt f₁ fmt₁ h
    simp only [upload_options, upload_options_end.parsed.injEq] at h
    simp [flags_of_options, option_present, h.1.symm]
  | cons o rest ih =>
    intro f fmt f₁ fmt₁ h
    unfold upload_options at h
    unfold flags_of_options
    simp only [option_present_cons]
    split_ifs at h with hhelp hwait hnocheck hnoreset hformat hcommon
    · have h1 : decide (o.opt ∈ ["--wait", "-w"]) = true := by
        rcases hwait with e | e <;> simp [e]
      rw [ih _ _ _ _ h, h1]
      simp only [Bool.true_or, if_true]
      unfold flags_of_options
      have h2 : decide (o.opt ∈ ["--nocheck"]) = false := by
        rcases hwait with e | e <;> simp [e]
      have h3 : decide (o.opt ∈ ["--noreset"]) = false := by
        rcases hwait with e | e <;> simp [e]
      rw [h2, h3]
      simp only [Bool.false_or]
      exact lor_flag_first _ _ _ _ _
    · have h1 : decide (o.opt ∈ ["--wait", "-w"]) = false := by
        simp [hnocheck]
      have h2 : decide (o.opt ∈ ["--nocheck"]) = true := by simp [hnocheck]
      have h3 : decide (o.opt ∈ ["--noreset"]) = false := by simp [hnocheck]
      rw [ih _ _ _ _ h, h1, h2, h3]
      simp only [Bool.true_or, Bool.false_or, if_true]
      unfold flags_of_options
      exact lor_flag_second _ _ _ _ _
    · have h1 : decide (o.opt ∈ ["--wait", "-w"]) = false := by
        simp [hnoreset]
      have h2 : decide (o.opt ∈ ["--nocheck"]) = false := by simp [hnoreset]
      have h3 : decide (o.opt ∈ ["--noreset"]) = true := by simp [hnoreset]
      rw [ih _ _ _ _ h, h1, h2, h3]
      simp only [Bool.true_or, Bool.false_or, if_true]
      unfold flags_of_options
      exact lor_flag_third _ _ _ _ _
    · have h1 : decide (o.opt ∈ ["--wait", "-w"]) = false := by
        simpa using hwait
      have h2 : decide (o.opt ∈ ["--nocheck"]) = false := by simpa using hnocheck
      have h3 : decide (o.opt ∈ ["--noreset"]) = false := by simpa using hnoreset
      rw [h1, h2, h3]
      simp only [Bool.false_or]
      cases hv : o.value with
      | none => rw [hv] at h; simp at h
      | some v =>
        rw [hv] at h
        exact ih _ _ _ _ h
    · have h1 : decide (o.opt ∈ ["--wait", "-w"]) = false := by
        simpa using hwait
      have h2 : decide (o.opt ∈ ["--nocheck"]) = false := by simpa using hnocheck
      have h3 : decide (o.opt ∈ ["--noreset"]) = false := by simpa using hnoreset
      rw [h1, h2, h3]
      simp only [Bool.false_or]
      exact ih _ _ _ _ h

theorem option_present_iff (spellings : List String) (options : List optline_option) :
    option_present spellings options = true ↔
      ∃ s, s ∈ options.map (fun o => o.opt) ∧ s ∈ spellings := by
  simp only [option_present, List.any_eq_true, decide_eq_true_eq, List.mem_map]
  constructor
  · rintro ⟨o, ho, hs⟩
    exact ⟨o.opt, ⟨o, ho, rfl⟩, hs⟩
  · rintro ⟨s, ⟨o, ho, rfl⟩, hs⟩
    exact ⟨o, ho, hs⟩

theorem option_present_congr (spellings : List String) (options options₂ : List optline_option)
    (h : ∀ s, s ∈ options₂.map (fun o => o.opt) ↔ s ∈ options.map (fun o => o.opt)) :
    option_present spellings options₂ = option_present spellings options := by
  have hiff : option_present spellings options₂ = true ↔
      option_present spellings options = true := by
    rw [option_present_iff, option_present_iff]
    constructor
    · rintro ⟨s, hs, hsp⟩
      exact ⟨s, (h s).mp hs, hsp⟩
    · rintro ⟨s, hs, hsp⟩
      exact ⟨s, (h s).mpr hs, hsp⟩
  cases h1 : option_present spellings options₂ <;>
    cases h2 : option_present spellings options <;> simp_all

/-- C7: for every option sequence with which the upload command reaches `ty_upload`, the
flag mask it passes is the OR of `TY_UPLOAD_WAIT` if `--wait` or `-w` is present,
`TY_UPLOAD_NOCHECK` if `--nocheck` is present and `TY_UPLOAD_NORESET` if `--noreset` is
present; another accepted command line with the same options, in any order and with any
repetition, passes the same mask; and the option loop never clears a bit of
`upload_flags`. -/
theorem upload_flags_or_of_options_present {B F : Type} (K : upload_constants)
    (pco : optline_option → Bool) (load : String → Option String → Option F)
    (board : Option B) (ur jr : Int) (options : List optline_option)
    (non_options : List String) (call : ty_upload_call B F)
    (h : (upload K pco load board ur jr options non_options).call = some call) :
    call.flags = flags_of_options K options ∧
    (∀ (board₂ : Option B) (ur₂ jr₂ : Int) (options₂ : List optline_option)
        (non_options₂ : List String) (call₂ : ty_upload_call B F),
      (upload K pco load board₂ ur₂ jr₂ options₂ non_options₂).call = some call₂ →
      (∀ s, s ∈ options₂.map (fun o => o.opt) ↔ s ∈ options.map (fun o => o.opt)) →
      call₂.flags = call.flags) ∧
    (∀ (opts : List optline_option) (f : Nat) (fmt : Option String) (f₁ : Nat)
        (fmt₁ : Option String),
      upload_options K pco opts f fmt = .parsed f₁ fmt₁ →
      ∀ i, f.testBit i = true → f₁.testBit i = true) := by
  have hflags : ∀ (board₂ : Option B) (ur₂ jr₂ : Int) (options₂ : List optline_option)
      (non_options₂ : List String) (call₂ : ty_upload_call B F),
      (upload K pco load board₂ ur₂ jr₂ options₂ non_options₂).call = some call₂ →
      call₂.flags = flags_of_options K options₂ := by
    intro board₂ ur₂ jr₂ options₂ non_options₂ call₂ h₂
    obtain ⟨flags, format, hopt, hf, -⟩ :=
      upload_call_some K pco load board₂ ur₂ jr₂ options₂ non_options₂ call₂ h₂
    rw [hf, upload_options_flags K pco options₂ 0 none flags format hopt, Nat.zero_or]
  refine ⟨hflags _ _ _ _ _ _ h, ?_, ?_⟩
  · intro board₂ ur₂ jr₂ options₂ non_options₂ call₂ h₂ hsame
    rw [hflags _ _ _ _ _ _ h, hflags _ _ _ _ _ _ h₂]
    unfold flags_of_options
    rw [option_present_congr _ _ _ hsame, option_present_congr _ _ _ hsame,
      option_present_congr _ _ _ hsame]
  · intro opts f fmt f₁ fmt₁ hopt i hi
    rw [upload_options_flags K pco opts f fmt f₁ fmt₁ hopt, Nat.testBit_or, hi]
    rfl

theorem upload_flags_or_of_options_present_witness :
    (upload (B := Nat) (F := String)
      { TY_UPLOAD_WAIT := 1, TY_UPLOAD_NOCHECK := 2, TY_UPLOAD_NORESET := 4,
        TY_UPLOAD_MAX_FIRMWARES := 2 }
      (fun _ => false) (fun a _ => some a) (some 7) 0 0
      [{ opt := "--noreset", value := none }, { opt := "-w", value := none },
       { opt := "--format", value := some "ihex" }, { opt := "--wait", value := none },
       { opt := "--noreset", value := none }]
      ["a.hex"]).call
      = some { board := 7, fws := ["a.hex"], fws_count := 1, flags := 5 } ∧
    (5 : Nat) = flags_of_options
      { TY_UPLOAD_WAIT := 1, TY_UPLOAD_NOCHECK := 2, TY_UPLOAD_NORESET := 4,
        TY_UPLOAD_MAX_FIRMWARES := 2 }
      [{ opt := "--noreset", value := none }, { opt := "-w", value := none },
       { opt := "--format", value := some "ihex" }, { opt := "--wait", value := none },
       { opt := "--noreset", value := none }] :=
  ⟨by decide,
   (upload_flags_or_of_options_present (B := Nat) (F := String)
      { TY_UPLOAD_WAIT := 1, TY_UPLOAD_NOCHECK := 2, TY_UPLOAD_NORESET := 4,
        TY_UPLOAD_MAX_FIRMWARES := 2 }
      (fun _ => false) (fun a _ => some a) (some 7) 0 0
      [{ opt := "--noreset", value := none }, { opt := "-w", value := none },
       { opt := "--format", value := some "ihex" }, { opt := "--wait", value := none },
       { opt := "--noreset", value := none }]
      ["a.hex"] { board := 7, fws := ["a.hex"], fws_count := 1, flags := 5 }
      (by decide)).1⟩

/-! ### `board_callback` -/

theorem board_callback_returns_zero (m : Nat → Option String → Bool) (tag : Option String)
    (s : board_selection) (b : Nat) (e : tyb_monitor_event) :
    (board_callback m tag s b e).2 = 0 := by
  unfold board_callback
  cases e <;> simp only <;> split_ifs <;> rfl

theorem board_callback_keeps_selected (m : Nat → Option String → Bool) (tag : Option String)
    (s : board_selection) (b b₂ : Nat) (e : tyb_monitor_event)
    (hs : s.main_board = some b) (he : (b₂, e) ≠ (b, .DROPPED)) :
    (board_callback m tag s b₂ e).1.main_board = some b := by
  unfold board_callback
  cases e with
  | ADDED => simp [hs]
  | CHANGED => exact hs
  | DISAPPEARED => exact hs
  | DROPPED =>
    have hne : b ≠ b₂ := by
      intro hb
      exact he (by rw [hb])
    simp [hs, hne]

theorem deliver_keeps_selected (m : Nat → Option String → Bool) (tag : Option String)
    (events : List (Nat × tyb_monitor_event)) (s : board_selection) (b : Nat)
    (hs : s.main_board = some b) (hno : (b, tyb_monitor_event.DROPPED) ∉ events) :
    (deliver m tag s events).main_board = some b := by
  induction events generalizing s with
  | nil => exact hs
  | cons x rest ih =>
    obtain ⟨b₂, e⟩ := x
    unfold deliver
    apply ih
    · exact board_callback_keeps_selected m tag s b b₂ e hs
        (fun h => hno (by rw [h]; exact List.mem_cons_self _ _))
    · exact fun h => hno (List.mem_cons_of_mem _ h)

theorem deliver_selects_first (m : Nat → Option String → Bool) (tag : Option String)
    (events : List (Nat × tyb_monitor_event)) (s : board_selection)
    (hs : s.main_board = none)
    (hno : ∀ b, first_added_match m tag events = some b →
      (b, tyb_monitor_event.DROPPED) ∉ events) :
    (deliver m tag s events).main_board = first_added_match m tag events := by
  induction events generalizing s with
  | nil => simpa [deliver, first_added_match] using hs
  | cons x rest ih =>
    obtain ⟨b₂, e⟩ := x
    unfold deliver
    by_cases hsel : e = .ADDED ∧ m b₂ tag = true
    · obtain ⟨he, hm⟩ := hsel
      have hfirst : first_added_match m tag ((b₂, e) :: rest) = some b₂ := by
        simp [first_added_match, List.find?, he, hm]
      rw [hfirst]
      apply deliver_keeps_selected
      · subst he
        simp [board_callback, hs, hm]
      · exact fun h => hno b₂ hfirst (List.mem_cons_of_mem _ h)
    · have hfirst : first_added_match m tag ((b₂, e) :: rest)
          = first_added_match m tag rest := by
        have : (decide (e = .ADDED) && m b₂ tag) = false := by
          rcases Classical.not_and_iff_or_not_not.mp hsel with h | h
          · simp [h]
          · simp [h]
        simp [first_added_match, List.find?, this]
      rw [hfirst]
      apply ih
      · unfold board_callback
        cases e with
        | ADDED =>
          have hm : ¬ m b₂ tag = true := fun h => hsel ⟨rfl, h⟩
          simp [hs, hm]
        | CHANGED => exact hs
        | DISAPPEARED => exact hs
        | DROPPED => simp [hs]
      · intro b hb hmem
        exact hno b (hfirst.trans hb) (List.mem_cons_of_mem _ hmem)

theorem first_added_match_append (m : Nat → Option String → Bool) (tag : Option String)
    (pre post : List (Nat × tyb_monitor_event)) (b : Nat)
    (h : first_added_match m tag pre = some b) :
    first_added_match m tag (pre ++ post) = some b := by
  unfold first_added_match at h ⊢
  rw [List.find?_append]
  cases hf : pre.find? (fun e => decide (e.2 = .ADDED) && m e.1 tag) with
  | none => rw [hf] at h; simp at h
  | some x => rw [hf] at h; simpa using h

/-- C8: for every tag and every sequence of events delivered to `board_callback` from the
initial statics, with no `DROPPED` event for the selected board, `main_board` ends as the
board of the first `ADDED` event matching the tag, or `NULL` if there is none; with no
tag (and a library that matches every board against no tag) that is the first board
added; once a board is selected no event other than its own `DROPPED` replaces it, so
the selection made by a prefix of the events is the final one; and `get_board` hands out
that board, or fails with not-found when none was selected. -/
theorem board_callback_selects_first_match (m : Nat → Option String → Bool)
    (tag : Option String) (events : List (Nat × tyb_monitor_event))
    (hno : ∀ b, first_added_match m tag events = some b →
      (b, tyb_monitor_event.DROPPED) ∉ events) :
    (deliver m tag .initial events).main_board = first_added_match m tag events ∧
    (tag = none → (∀ b, m b none = true) →
      (deliver m tag .initial events).main_board = first_added events) ∧
    (∀ (s : board_selection) (b b₂ : Nat) (e : tyb_monitor_event),
      s.main_board = some b → e ≠ .DROPPED →
      (board_callback m tag s b₂ e).1.main_board = some b) ∧
    (∀ (pre post : List (Nat × tyb_monitor_event)) (b : Nat), events = pre ++ post →
      (deliver m tag .initial pre).main_board = some b →
      (deliver m tag .initial events).main_board = some b) ∧
    (∀ r : Int, 0 ≤ r →
      get_board r (deliver m tag .initial events)
        = match first_added_match m tag events with
          | none => .not_found
          | some b => .board b) := by
  have hmain : (deliver m tag .initial events).main_board = first_added_match m tag events :=
    deliver_selects_first m tag events .initial rfl hno
  refine ⟨hmain, ?_, ?_, ?_, ?_⟩
  · intro htag hall
    rw [hmain, htag]
    unfold first_added_match first_added
    congr 2
    funext e
    rw [hall e.1, Bool.and_true]
  · intro s b b₂ e hs he
    exact board_callback_keeps_selected m tag s b b₂ e hs
      (fun h => he (by injection h))
  · intro pre post b hsplit hpre
    have hnopre : ∀ c, first_added_match m tag pre = some c →
        (c, tyb_monitor_event.DROPPED) ∉ pre := by
      intro c hc hmem
      have hc2 := first_added_match_append m tag pre post c hc
      rw [← hsplit] at hc2
      exact hno c hc2 (by rw [hsplit]; exact List.mem_append_left _ hmem)
    have hpre2 := deliver_selects_first m tag pre .initial rfl hnopre
    rw [hpre] at hpre2
    rw [hmain, hsplit]
    exact first_added_match_append m tag pre post b hpre2.symm
  · intro r hr
    unfold get_board
    rw [if_neg (by omega), hmain]

theorem board_callback_selects_first_match_witness :
    (deliver (fun b t => decide (t = some "A") && decide (b = 20)) (some "A") .initial
      [(10, .ADDED), (20, .CHANGED), (20, .ADDED), (10, .DROPPED), (30, .ADDED),
       (20, .DISAPPEARED), (20, .ADDED)]).main_board = some 20 :=
  (board_callback_selects_first_match
    (fun b t => decide (t = some "A") && decide (b = 20)) (some "A")
    [(10, .ADDED), (20, .CHANGED), (20, .ADDED), (10, .DROPPED), (30, .ADDED),
     (20, .DISAPPEARED), (20, .ADDED)] (by decide)).1

theorem deliver_reference_balance (m : Nat → Option String → Bool) (tag : Option String)
    (events : List (Nat × tyb_monitor_event)) (s : board_selection)
    (hs : ∀ x, s.refs.count x = s.unrefs.count x + (if s.main_board = some x then 1 else 0))
    (hl : s.refs.length = s.unrefs.length + (if s.main_board = none then 0 else 1)) :
    (∀ x, (deliver m tag s events).refs.count x
      = (deliver m tag s events).unrefs.count x
        + (if (deliver m tag s events).main_board = some x then 1 else 0)) ∧
    (deliver m tag s events).refs.length
      = (deliver m tag s events).unrefs.length
        + (if (deliver m tag s events).main_board = none then 0 else 1) := by
  induction events generalizing s with
  | nil => exact ⟨hs, hl⟩
  | cons ev rest ih =>
    obtain ⟨b, e⟩ := ev
    unfold deliver
    apply ih
    · intro x
      unfold board_callback
      cases e with
      | ADDED =>
        by_cases hc : s.main_board = none ∧ m b tag = true
        · rw [if_pos hc]
          have hx := hs x
          rw [hc.1] at hx
          simp only [List.count_append, Option.some.injEq] at hx ⊢
          by_cases hbx : b = x
          · subst hbx; simp at hx ⊢; omega
          · have hxb : ¬ x = b := fun h => hbx h.symm
            simp [hbx, hxb, List.count_singleton] at hx ⊢; omega
        · rw [if_neg hc]; exact hs x
      | CHANGED => exact hs x
      | DISAPPEARED => exact hs x
      | DROPPED =>
        by_cases hc : s.main_board = some b
        · rw [if_pos hc]
          have hx := hs x
          rw [hc] at hx
          simp only [List.count_append, Option.some.injEq] at hx ⊢
          by_cases hbx : b = x
          · subst hbx; simp at hx ⊢; omega
          · have hxb : ¬ x = b := fun h => hbx h.symm
            simp [hbx, hxb, List.count_singleton] at hx ⊢; omega
        · rw [if_neg hc]; exact hs x
    · unfold board_callback
      cases e with
      | ADDED =>
        by_cases hc : s.main_board = none ∧ m b tag = true
        · rw [if_pos hc]
          rw [hc.1] at hl
          simp at hl ⊢
          omega
        · rw [if_neg hc]; exact hl
      | CHANGED => exact hl
      | DISAPPEARED => exact hl
      | DROPPED =>
        by_cases hc : s.main_board = some b
        · rw [if_pos hc]
          rw [hc] at hl
          simp at hl ⊢
          omega
        · rw [if_neg hc]; exact hl

/-- C9: for every sequence of events delivered to `board_callback` from the initial
statics, the callback has called `tyb_board_ref` once more than `tyb_board_unref` when
`main_board` is not `NULL` (and the extra reference is on `main_board` itself), and
equally often when it is `NULL`; right after a `DROPPED` event for board `b`,
`main_board` is not `b`; and the callback returns 0 for every event. -/
theorem board_callback_holds_one_reference (m : Nat → Option String → Bool)
    (tag : Option String) (events : List (Nat × tyb_monitor_event)) :
    ((deliver m tag .initial events).main_board = none →
      (deliver m tag .initial events).refs.length
        = (deliver m tag .initial events).unrefs.length) ∧
    (∀ b, (deliver m tag .initial events).main_board = some b →
      (deliver m tag .initial events).refs.length
        = (deliver m tag .initial events).unrefs.length + 1 ∧
      (deliver m tag .initial events).refs.count b
        = (deliver m tag .initial events).unrefs.count b + 1 ∧
      ∀ x, x ≠ b → (deliver m tag .initial events).refs.count x
        = (deliver m tag .initial events).unrefs.count x) ∧
    (∀ (s : board_selection) (b : Nat),
      (board_callback m tag s b .DROPPED).1.main_board ≠ some b) ∧
    (∀ (s : board_selection) (b : Nat) (e : tyb_monitor_event),
      (board_callback m tag s b e).2 = 0) := by
  obtain ⟨hcount, hlen⟩ := deliver_reference_balance m tag events .initial
    (by intro x; simp [board_selection.initial]) (by simp [board_selection.initial])
  refine ⟨?_, ?_, ?_, board_callback_returns_zero m tag⟩
  · intro hnone
    rw [hlen, if_pos hnone]
    rfl
  · intro b hb
    refine ⟨?_, ?_, ?_⟩
    · rw [hlen, if_neg (by rw [hb]; simp)]
    · rw [hcount b, if_pos hb]
    · intro x hx
      rw [hcount x, if_neg (by rw [hb]; intro h; injection h with h; exact hx h.symm)]
      rfl
  · intro s b
    unfold board_callback
    simp only
    by_cases hc : s.main_board = some b
    · rw [if_pos hc]; simp
    · rw [if_neg hc]; exact hc

/-! ### `get_basename` -/

theorem strip_trailing_slashes_spec (path : List Char) (n : Nat) :
    strip_trailing_slashes path n ≤ n ∧
    (∀ j, strip_trailing_slashes path n ≤ j → j < n → char_at path j = '/') ∧
    (strip_trailing_slashes path n = 0 ∨
      char_at path (strip_trailing_slashes path n - 1) ≠ '/') := by
  induction n with
  | zero =>
    refine ⟨le_refl _, ?_, Or.inl rfl⟩
    intro j _ hj
    exact absurd hj (Nat.not_lt_zero j)
  | succ n ih =>
    unfold strip_trailing_slashes
    by_cases hc : char_at path n = '/'
    · rw [if_pos hc]
      obtain ⟨h1, h2, h3⟩ := ih
      refine ⟨Nat.le_succ_of_le h1, ?_, h3⟩
      intro j hj hjn
      by_cases hjeq : j = n
      · rw [hjeq]; exact hc
      · exact h2 j hj (by omega)
    · rw [if_neg hc]
      refine ⟨le_refl _, ?_, Or.inr ?_⟩
      · intro j hj hjn
        omega
      · rw [Nat.add_sub_cancel]
        exact hc

theorem memrchr_none (s : List Char) (c : Char) (n : Nat) (h : memrchr s c n = none) :
    ∀ j, j < n → char_at s j ≠ c := by
  induction n with
  | zero => intro j hj; exact absurd hj (Nat.not_lt_zero j)
  | succ n ih =>
    unfold memrchr at h
    by_cases hc : char_at s n = c
    · rw [if_pos hc] at h
      exact absurd h (by simp)
    · rw [if_neg hc] at h
      intro j hj
      by_cases hjeq : j = n
      · rw [hjeq]; exact hc
      · exact ih h j (by omega)

theorem memrchr_some (s : List Char) (c : Char) (n i : Nat) (h : memrchr s c n = some i) :
    i < n ∧ char_at s i = c ∧ ∀ j, i < j → j < n → char_at s j ≠ c := by
  induction n with
  | zero => simp [memrchr] at h
  | succ n ih =>
    unfold memrchr at h
    by_cases hc : char_at s n = c
    · rw [if_pos hc] at h
      have hi : n = i := by simpa using h
      subst hi
      exact ⟨Nat.lt_succ_self _, hc, fun j h1 h2 => by omega⟩
    · rw [if_neg hc] at h
      obtain ⟨h1, h2, h3⟩ := ih h
      refine ⟨by omega, h2, ?_⟩
      intro j hij hjn
      by_cases hjeq : j = n
      · rw [hjeq]; exact hc
      · exact h3 j hij (by omega)

theorem char_at_of_getElem? (path : List Char) (j : Nat) (c : Char)
    (h : path[j]? = some c) : char_at path j = c := by
  unfold char_at
  rw [List.getD_eq_getElem?_getD, h]
  rfl

theorem mem_take_drop_index (path : List Char) (off len : Nat) (c : Char)
    (h : c ∈ (path.take len).drop off) :
    ∃ j, off ≤ j ∧ j < len ∧ char_at path j = c := by
  obtain ⟨k, hk⟩ := List.mem_iff_getElem?.mp h
  rw [List.getElem?_drop, List.getElem?_take] at hk
  by_cases hlt : off + k < len
  · rw [if_pos hlt] at hk
    exact ⟨off + k, Nat.le_add_right _ _, hlt, char_at_of_getElem? path _ c hk⟩
  · rw [if_neg hlt] at hk
    exact absurd hk (by simp)

theorem mem_drop_index (path : List Char) (len : Nat) (c : Char) (h : c ∈ path.drop len) :
    ∃ j, len ≤ j ∧ j < path.length ∧ char_at path j = c := by
  obtain ⟨k, hk⟩ := List.mem_iff_getElem?.mp h
  rw [List.getElem?_drop] at hk
  have hlt : len + k < path.length := by
    by_contra hge
    rw [List.getElem?_eq_none (by omega)] at hk
    exact absurd hk (by simp)
  exact ⟨len + k, Nat.le_add_right _ _, hlt, char_at_of_getElem? path _ c hk⟩

theorem drop_eq_take_drop_append (path : List Char) (off len : Nat) (h : off ≤ len)
    (hlen : len ≤ path.length) :
    path.drop off = (path.take len).drop off ++ path.drop len := by
  have hsplit : path.drop off = ((path.take len) ++ (path.drop len)).drop off := by
    rw [List.take_append_drop]
  rw [hsplit, List.drop_append_of_le_length]
  rw [List.length_take]
  omega

theorem char_at_mem_take (path : List Char) (i len : Nat) (hi : i < len)
    (hlen : len ≤ path.length) : char_at path i ∈ path.take len := by
  have hip : i < path.length := lt_of_lt_of_le hi hlen
  apply List.mem_iff_getElem?.mpr
  refine ⟨i, ?_⟩
  rw [List.getElem?_take_of_lt hi, List.getElem?_eq_getElem hip]
  unfold char_at
  rw [List.getD_eq_getElem path (Char.ofNat 0) hip]

/-- C11: for every path, `get_basename` returns a pointer into the path itself, so the
result is a suffix of it.  With `len` the length left after stripping all trailing
slashes (everything from `len` on is a slash, and the character before `len` is not),
the result starts just after the last slash among the first `len` characters, or is the
whole path when there is none; so the result is a slash-free name followed by the
trailing slashes, and `"a/b/"` yields `"b/"`. -/
theorem get_basename_after_last_slash (path : List Char) :
    get_basename path ≤ get_basename_len path ∧ get_basename_len path ≤ path.length ∧
    path.drop (get_basename path) <:+ path ∧
    (∀ c ∈ path.drop (get_basename_len path), c = '/') ∧
    (get_basename_len path = 0 ∨ char_at path (get_basename_len path - 1) ≠ '/') ∧
    ('/' ∈ path.take (get_basename_len path) →
      1 ≤ get_basename path ∧ char_at path (get_basename path - 1) = '/') ∧
    ('/' ∉ path.take (get_basename_len path) →
      get_basename path = 0 ∧ path.drop (get_basename path) = path) ∧
    path.drop (get_basename path)
      = (path.take (get_basename_len path)).drop (get_basename path)
        ++ path.drop (get_basename_len path) ∧
    '/' ∉ (path.take (get_basename_len path)).drop (get_basename path) ∧
    get_basename ['a', '/', 'b', '/'] = 2 ∧
    List.drop (get_basename ['a', '/', 'b', '/']) ['a', '/', 'b', '/'] = ['b', '/'] := by
  obtain ⟨hlen, htrail, hstripped⟩ := strip_trailing_slashes_spec path path.length
  have hoff : get_basename path ≤ get_basename_len path := by
    unfold get_basename
    cases hm : memrchr path '/' (get_basename_len path) with
    | none => exact Nat.zero_le _
    | some i => exact (memrchr_some path '/' _ i hm).1
  have hnoslash : '/' ∉ (path.take (get_basename_len path)).drop (get_basename path) := by
    intro hmem
    obtain ⟨j, hj1, hj2, hj3⟩ := mem_take_drop_index path _ _ '/' hmem
    unfold get_basename at hj1
    cases hm : memrchr path '/' (get_basename_len path) with
    | none => exact memrchr_none path '/' _ hm j hj2 hj3
    | some i =>
      rw [hm] at hj1
      exact (memrchr_some path '/' _ i hm).2.2 j hj1 hj2 hj3
  refine ⟨hoff, hlen, List.drop_suffix _ _, ?_, hstripped, ?_, ?_,
    drop_eq_take_drop_append path _ _ hoff hlen, hnoslash, by decide, by decide⟩
  · intro c hc
    obtain ⟨j, hj1, hj2, hj3⟩ := mem_drop_index path _ c hc
    rw [← hj3]
    exact htrail j hj1 hj2
  · intro hmem
    have hmem0 : '/' ∈ (path.take (get_basename_len path)).drop 0 := by simpa using hmem
    obtain ⟨j, -, hj2, hj3⟩ := mem_take_drop_index path 0 _ '/' hmem0
    unfold get_basename
    cases hm : memrchr path '/' (get_basename_len path) with
    | none => exact absurd hj3 (memrchr_none path '/' _ hm j hj2)
    | some i =>
      refine ⟨Nat.succ_le_succ (Nat.zero_le _), ?_⟩
      simp only [Nat.add_sub_cancel]
      exact (memrchr_some path '/' _ i hm).2.1
  · intro hnot
    have h0 : get_basename path = 0 := by
      unfold get_basename
      cases hm : memrchr path '/' (get_basename_len path) with
      | none => rfl
      | some i =>
        obtain ⟨hi, hc, -⟩ := memrchr_some path '/' _ i hm
        have := char_at_mem_take path i _ hi hlen
        rw [hc] at this
        exact absurd this hnot
    rw [h0]
    exact ⟨rfl, rfl⟩

/-! ### `_ty_statat` -/

/-- C12: whenever the stat call fails (returns a negative value), `_ty_statat` returns
through `ty_error` with the kind `TY_ERROR_ACCESS` for `EACCES`, `TY_ERROR_IO` for `EIO`,
`TY_ERROR_NOT_FOUND` for `ENOENT` and for `ENOTDIR`, and `TY_ERROR_SYSTEM` for every
other `errno`; in each of these cases `*info` is what it was before the call. -/
theorem ty_statat_typed_errors (TY_FILE_HIDDEN : Nat) (sys : stat_call → stat_reply)
    (fd : Int) (path : List Char) (info : ty_file_info) (follow : Bool)
    (hfail : (sys (ty_statat_call fd path follow)).r < 0) :
    (_ty_statat TY_FILE_HIDDEN sys fd path info follow).2 = info ∧
    ((sys (ty_statat_call fd path follow)).errno = EACCES →
      (_ty_statat TY_FILE_HIDDEN sys fd path info follow).1 = .error TY_ERROR_ACCESS) ∧
    ((sys (ty_statat_call fd path follow)).errno = EIO →
      (_ty_statat TY_FILE_HIDDEN sys fd path info follow).1 = .error TY_ERROR_IO) ∧
    ((sys (ty_statat_call fd path follow)).errno = ENOENT →
      (_ty_statat TY_FILE_HIDDEN sys fd path info follow).1 = .error TY_ERROR_NOT_FOUND) ∧
    ((sys (ty_statat_call fd path follow)).errno = ENOTDIR →
      (_ty_statat TY_FILE_HIDDEN sys fd path info follow).1 = .error TY_ERROR_NOT_FOUND) ∧
    ((sys (ty_statat_call fd path follow)).errno ≠ EACCES →
      (sys (ty_statat_call fd path follow)).errno ≠ EIO →
      (sys (ty_statat_call fd path follow)).errno ≠ ENOENT →
      (sys (ty_statat_call fd path follow)).errno ≠ ENOTDIR →
      (_ty_statat TY_FILE_HIDDEN sys fd path info follow).1 = .error TY_ERROR_SYSTEM) := by
  unfold _ty_statat
  simp only [if_pos hfail]
  refine ⟨?_, ?_, ?_, ?_, ?_, ?_⟩
  · split_ifs <;> rfl
  · intro h
    rw [if_pos h]
  · intro h
    rw [if_neg (by rw [h]; decide), if_pos h]
  · intro h
    rw [if_neg (by rw [h]; decide), if_neg (by rw [h]; decide), if_pos h]
  · intro h
    rw [if_neg (by rw [h]; decide), if_neg (by rw [h]; decide), if_neg (by rw [h]; decide),
      if_pos h]
  · intro h1 h2 h3 h4
    rw [if_neg h1, if_neg h2, if_neg h3, if_neg h4]

theorem ty_statat_typed_errors_witness :
    _ty_statat 1
      (fun _ => { r := -1, errno := 20,
                  sb := { st_mode := 0, st_size := 0, st_mtim_tv_sec := 0,
                          st_mtim_tv_nsec := 0, st_dev := 0, st_ino := 0 } })
      (-1) ['a', '/', 'b'] { type := .SPECIAL, size := 7, mtime := 8, dev := 9, ino := 10,
                             flags := 11 } true
      = (.error TY_ERROR_NOT_FOUND,
         { type := .SPECIAL, size := 7, mtime := 8, dev := 9, ino := 10, flags := 11 }) :=
  Prod.ext
    ((ty_statat_typed_errors 1
      (fun _ => { r := -1, errno := 20,
                  sb := { st_mode := 0, st_size := 0, st_mtim_tv_sec := 0,
                          st_mtim_tv_nsec := 0, st_dev := 0, st_ino := 0 } })
      (-1) ['a', '/', 'b'] { type := .SPECIAL, size := 7, mtime := 8, dev := 9, ino := 10,
                             flags := 11 } true (by decide)).2.2.2.2.1 (by decide))
    (by decide)

end TyTools
